import Mathlib

/-!
Verification of the live-process memory token scanner
(`src-tauri/src/language_server/windows.rs`, function
`scan_process_for_token` and predicate `is_readable`).

The OS is modelled as an oracle environment `ScanEnv`: the answers of
`VirtualQueryEx`, the bytes of the target process memory, and the
success/failure of each `copy_address` call are arbitrary functions.
`usize` arithmetic is `Nat` with explicit saturation at `2^64 - 1`
(`saturating_add`) and wrapping modulo `2^64` (the unchecked `base +
offset` cast), matching the 64-bit Windows target.

The outer region-enumeration loop of the source is a genuine `while`
that need not terminate for anomalous query answers, so it is embedded
with explicit fuel: a `none` result means the loop ran longer than the
given fuel bound.  The inner chunk loop always terminates within
`capped + 1` iterations whenever `capped` is a representable `usize`
(proved below), and is given exactly that fuel by the outer loop.

Every `copy_address` call is recorded in a trace of `ReadEvent`s
(region base, offset inside the region, requested length, success
flag), so that statements about which reads are attempted, and which
buffers reach the pattern matcher, are statements about the model.
-/

namespace AntigravityScan

/-- Largest value of a 64-bit `usize`. -/
def USIZE_MAX : Nat := 2 ^ 64 - 1

/-- Modulus of 64-bit `usize` arithmetic. -/
def USIZE_MOD : Nat := 2 ^ 64

/-- Rust `usize::saturating_add` on the 64-bit target. -/
def satAdd (a b : Nat) : Nat := min (a + b) USIZE_MAX

/-- Windows `PAGE_NOACCESS` protection constant. -/
def PAGE_NOACCESS : Nat := 0x01

/-- Windows `PAGE_READWRITE` protection constant. -/
def PAGE_READWRITE : Nat := 0x04

/-- Windows `PAGE_WRITECOPY` protection constant. -/
def PAGE_WRITECOPY : Nat := 0x08

/-- Windows `PAGE_EXECUTE_READWRITE` protection constant. -/
def PAGE_EXECUTE_READWRITE : Nat := 0x40

/-- Windows `PAGE_EXECUTE_WRITECOPY` protection constant. -/
def PAGE_EXECUTE_WRITECOPY : Nat := 0x80

/-- Windows `PAGE_GUARD` protection modifier. -/
def PAGE_GUARD : Nat := 0x100

/-- Windows `MEM_COMMIT` region state constant. -/
def MEM_COMMIT : Nat := 0x1000

/-- Windows `MEM_RESERVE` region state constant. -/
def MEM_RESERVE : Nat := 0x2000

/-- The fields of `MEMORY_BASIC_INFORMATION` that the scanner reads. -/
structure MEMORY_BASIC_INFORMATION where
  BaseAddress : Nat
  RegionSize : Nat
  State : Nat
  Protect : Nat
deriving Repr, DecidableEq

/-- Translation of `is_readable` (windows.rs lines 16-28): exact
equality tests against the protection constants, with the `NOACCESS` /
`GUARD` early return followed by the `matches!` over the four writable
protections. -/
def is_readable (protect : Nat) : Bool :=
  if protect = PAGE_NOACCESS || protect = PAGE_GUARD then false
  else
    protect = PAGE_READWRITE || protect = PAGE_WRITECOPY ||
      protect = PAGE_EXECUTE_READWRITE || protect = PAGE_EXECUTE_WRITECOPY

/-- One `copy_address` attempt: the region base, the offset of the read
inside the region, the requested length, and whether the read
succeeded. -/
structure ReadEvent where
  base : Nat
  offset : Nat
  len : Nat
  ok : Bool
deriving Repr, DecidableEq

/-- Oracle environment for one `scan_process_for_token` call.

Modelled from the spec: the configuration constants `CHUNK_SIZE`,
`SCAN_AHEAD` and `MAX_REGION_BYTES`, and the pattern matcher
`search_bytes_for_token`, live in `language_server/utils.rs`, which is
not part of the sources; following §3 (ScanConfig) and §4.1 of the
spec they are carried as opaque parameters of the environment (the
matcher absorbs the compiled `uuid_re` and the `patterns` pair it is
called with).  The remaining fields model the OS: `query` is
`VirtualQueryEx` (`none` when the returned size differs from
`size_of::<MEMORY_BASIC_INFORMATION>()`), `mem` gives the byte of the
target process at an absolute address, `readFails` tells whether the
`copy_address` call at a given absolute start address and length
fails, and the three flags select the outcome of the two
handle-acquisition steps. -/
structure ScanEnv where
  CHUNK_SIZE : Nat
  SCAN_AHEAD : Nat
  MAX_REGION_BYTES : Nat
  lead : List Nat
  trail : List Nat
  query : Nat → Option MEMORY_BASIC_INFORMATION
  mem : Nat → Nat
  readFails : Nat → Nat → Bool
  matcher : List Nat → Option String
  openFails : Bool
  handleInvalid : Bool
  rpmFails : Bool

/-- Bytes that a successful `copy_address` starting at absolute address
`start` deposits in a buffer of length `len`. -/
def chunkBuffer (env : ScanEnv) (start len : Nat) : List Nat :=
  (List.range len).map (fun i => env.mem (start + i))

/-- The buffer a successful `ReadEvent` handed to the matcher. -/
def eventBuffer (env : ScanEnv) (e : ReadEvent) : List Nat :=
  chunkBuffer env ((e.base + e.offset) % USIZE_MOD) e.len

/-- The overlap computed at windows.rs line 59:
`patterns.0.len().max(patterns.1.len()) + SCAN_AHEAD`. -/
def overlapOf (env : ScanEnv) : Nat :=
  max env.lead.length env.trail.length + env.SCAN_AHEAD

/-- The region-size cap of windows.rs line 58:
`min(region_size, MAX_REGION_BYTES)`. -/
def cappedOf (env : ScanEnv) (region_size : Nat) : Nat :=
  min region_size env.MAX_REGION_BYTES

/-- Translation of the inner chunk loop (windows.rs lines 60-88).
`offset` walks the region; each iteration requests
`min(CHUNK_SIZE, capped - offset)` bytes at `base + offset` (the
unchecked Rust addition wraps modulo `2^64`).  A failed read skips
forward by `max(1, chunk_size - overlap)` (lines 73-74); a successful
read of `read = chunk_size` bytes is handed to the matcher, returning
on a match (lines 81-84) and otherwise stepping by
`max(1, read - overlap)` (lines 86-87), both with `saturating_add` /
`saturating_sub`.  The first component is `none` when the fuel ran
out before the loop exited; the second records every `copy_address`
attempt in order. -/
def scanChunksF (env : ScanEnv) (base capped overlap : Nat) :
    Nat → Nat → Option (Option String) × List ReadEvent
  | 0, _ => (none, [])
  | fuel + 1, offset =>
    if offset < capped then
      let chunk_size := min env.CHUNK_SIZE (capped - offset)
      let start := (base + offset) % USIZE_MOD
      if env.readFails start chunk_size then
        let step := max 1 (chunk_size - overlap)
        let r := scanChunksF env base capped overlap fuel (satAdd offset step)
        (r.1, ⟨base, offset, chunk_size, false⟩ :: r.2)
      else
        match env.matcher (chunkBuffer env start chunk_size) with
        | some token => (some (some token), [⟨base, offset, chunk_size, true⟩])
        | none =>
          let step := max 1 (chunk_size - overlap)
          let r := scanChunksF env base capped overlap fuel (satAdd offset step)
          (r.1, ⟨base, offset, chunk_size, true⟩ :: r.2)
    else (some none, [])

/-- Translation of the outer `VirtualQueryEx` loop (windows.rs lines
43-94).  A query answer is processed by the committed/readable/size
gate of line 57; a scanned region runs the chunk loop from offset `0`
with fuel `capped + 1` (shown sufficient for every `usize`-representable
cap by `scanChunksF_ne_none`); a found token returns immediately
(line 83); otherwise the next query address is
`base.saturating_add(region_size)` and the loop breaks when it is zero
(lines 90-93).  `(none, t)` means the loop did not finish within
`fuel` outer iterations (or, only for caps exceeding `USIZE_MAX` and so
not representable in the source, that the inner loop diverged). -/
def scanRegionsF (env : ScanEnv) :
    Nat → Nat → Option (Option String) × List ReadEvent
  | 0, _ => (none, [])
  | fuel + 1, address =>
    match env.query address with
    | none => (some none, [])
    | some info =>
      if info.State = MEM_COMMIT ∧ is_readable info.Protect = true ∧
          0 < info.RegionSize then
        let capped := cappedOf env info.RegionSize
        let inner := scanChunksF env info.BaseAddress capped (overlapOf env)
          (capped + 1) 0
        match inner.1 with
        | none => (none, inner.2)
        | some (some token) => (some (some token), inner.2)
        | some none =>
          let address' := satAdd info.BaseAddress info.RegionSize
          if address' = 0 then (some none, inner.2)
          else
            let rest := scanRegionsF env fuel address'
            (rest.1, inner.2 ++ rest.2)
      else
        let address' := satAdd info.BaseAddress info.RegionSize
        if address' = 0 then (some none, [])
        else scanRegionsF env fuel address'

/-- Observable outcome of one call: the returned `Result` (`error` for
an `anyhow` error, `ok` for `Ok`), how many times `OpenProcess`
returned a handle, how many times `CloseHandle` was called, and the
trace of `copy_address` attempts. -/
structure ScanRun where
  result : Except Unit (Option String)
  opens : Nat
  closes : Nat
  trace : List ReadEvent
deriving Repr

/-- Translation of `scan_process_for_token` (windows.rs lines 30-98).
The three early exits, in source order: `OpenProcess` fails (line 36,
`?`, no handle opened), the returned handle is invalid (lines 37-39,
handle opened, returned `Err` with no `CloseHandle`), and the
`read_process_memory` handle acquisition fails (line 41, returned `Err`
with no `CloseHandle`).  On the found path (lines 82-83) and the
exhaustion path (lines 96-97) the handle is closed once.  `none` means
the region loop exceeded the fuel. -/
def scan_process_for_token (env : ScanEnv) (fuel : Nat) : Option ScanRun :=
  if env.openFails then some ⟨Except.error (), 0, 0, []⟩
  else if env.handleInvalid then some ⟨Except.error (), 1, 0, []⟩
  else if env.rpmFails then some ⟨Except.error (), 1, 0, []⟩
  else
    match (scanRegionsF env fuel 0).1 with
    | none => none
    | some r => some ⟨Except.ok r, 1, 1, (scanRegionsF env fuel 0).2⟩

/-- The call never finishes: no amount of fuel makes the region walk
return. -/
def scanNeverReturns (env : ScanEnv) : Prop :=
  ∀ fuel, scan_process_for_token env fuel = none

/-- Environment in which `OpenProcess` succeeds with a valid handle but
the `read_process_memory` handle acquisition fails. -/
def envRpmFail : ScanEnv :=
  { CHUNK_SIZE := 1, SCAN_AHEAD := 0, MAX_REGION_BYTES := 1, lead := [], trail := [],
    query := fun _ => none, mem := fun _ => 0, readFails := fun _ _ => false,
    matcher := fun _ => none,
    openFails := false, handleInvalid := false, rpmFails := true }

/-- Environment in which every `copy_address` call fails. -/
def envSkip : ScanEnv :=
  { CHUNK_SIZE := 1, SCAN_AHEAD := 0, MAX_REGION_BYTES := 4, lead := [], trail := [],
    query := fun _ => none, mem := fun _ => 0, readFails := fun _ _ => true,
    matcher := fun _ => none,
    openFails := false, handleInvalid := false, rpmFails := false }

/-- Environment with one committed read-write region of four bytes at
address zero, all reads succeeding and the matcher never firing. -/
def envPlain : ScanEnv :=
  { CHUNK_SIZE := 2, SCAN_AHEAD := 0, MAX_REGION_BYTES := 8, lead := [], trail := [],
    query := fun a =>
      if a = 0 then some ⟨0, 4, MEM_COMMIT, PAGE_READWRITE⟩ else none,
    mem := fun _ => 0, readFails := fun _ _ => false, matcher := fun _ => none,
    openFails := false, handleInvalid := false, rpmFails := false }

/-- Anomalous environment: every query answers with a reserved region
of base zero and size one, so the next query address is always one and
the walk never advances. -/
def envLoop : ScanEnv :=
  { CHUNK_SIZE := 1, SCAN_AHEAD := 0, MAX_REGION_BYTES := 1, lead := [], trail := [],
    query := fun _ => some ⟨0, 1, MEM_RESERVE, 0⟩,
    mem := fun _ => 0, readFails := fun _ _ => false, matcher := fun _ => none,
    openFails := false, handleInvalid := false, rpmFails := false }

/-- Environment whose very first query reports no region. -/
def envQnone : ScanEnv :=
  { CHUNK_SIZE := 1, SCAN_AHEAD := 0, MAX_REGION_BYTES := 0, lead := [], trail := [],
    query := fun _ => none, mem := fun _ => 0, readFails := fun _ _ => false,
    matcher := fun _ => none,
    openFails := false, handleInvalid := false, rpmFails := false }

/-- Environment whose memory is all sevens and whose matcher fires on
the two-byte buffer of sevens, so the very first chunk matches. -/
def envHit : ScanEnv :=
  { CHUNK_SIZE := 2, SCAN_AHEAD := 0, MAX_REGION_BYTES := 8, lead := [], trail := [],
    query := fun a =>
      if a = 0 then some ⟨0, 4, MEM_COMMIT, PAGE_READWRITE⟩ else none,
    mem := fun _ => 7,
    readFails := fun _ _ => false,
    matcher := fun buf => if buf = [7, 7] then some "tok" else none,
    openFails := false, handleInvalid := false, rpmFails := false }

/-- Environment with chunk size four and overlap two (one-byte leading
pattern plus one byte of scan-ahead), for exercising the boundary
coverage guarantee. -/
def envCov : ScanEnv :=
  { CHUNK_SIZE := 4, SCAN_AHEAD := 1, MAX_REGION_BYTES := 8, lead := [1], trail := [],
    query := fun _ => none, mem := fun _ => 0, readFails := fun _ _ => false,
    matcher := fun _ => none,
    openFails := false, handleInvalid := false, rpmFails := false }

/-- Environment with two adjacent committed read-write regions of four
bytes each, meeting at address four. -/
def envTwo : ScanEnv :=
  { CHUNK_SIZE := 4, SCAN_AHEAD := 0, MAX_REGION_BYTES := 8, lead := [], trail := [],
    query := fun a =>
      if a = 0 then some ⟨0, 4, MEM_COMMIT, PAGE_READWRITE⟩
      else if a = 4 then some ⟨4, 4, MEM_COMMIT, PAGE_READWRITE⟩
      else none,
    mem := fun _ => 0, readFails := fun _ _ => false, matcher := fun _ => none,
    openFails := false, handleInvalid := false, rpmFails := false }

/-- Saturating addition agrees with plain addition below the bound. -/
theorem satAdd_eq_add {a b : Nat} (h : a + b ≤ USIZE_MAX) : satAdd a b = a + b :=
  min_eq_left h

/-- Saturating addition never exceeds the bound. -/
theorem satAdd_le (a b : Nat) : satAdd a b ≤ USIZE_MAX :=
  min_le_right _ _

/-- The chunk loop exits as soon as the offset reaches the cap. -/
theorem scanChunksF_halt (env : ScanEnv) (base capped overlap fuel offset : Nat)
    (h : ¬ offset < capped) :
    scanChunksF env base capped overlap (fuel + 1) offset = (some none, []) := by
  simp only [scanChunksF, if_neg h]

/-- The skip of the chunk loop never overshoots the cap: from an
in-range offset, `max 1 (chunk_size - overlap)` more bytes still lie at
or below `capped`. -/
theorem chunk_step_le (CH capped overlap offset : Nat) (h : offset < capped) :
    offset + max 1 (min CH (capped - offset) - overlap) ≤ capped := by
  have h1 : min CH (capped - offset) - overlap ≤ capped - offset := by
    exact le_trans (Nat.sub_le _ _) (min_le_right _ _)
  have h2 : max 1 (min CH (capped - offset) - overlap) ≤ capped - offset := by
    omega
  omega

/-- Unfolding of one iteration of the chunk loop on the result
component, for an in-range offset. -/
theorem scanChunksF_fst_step (env : ScanEnv) (base capped overlap fuel offset : Nat)
    (h : offset < capped) :
    (scanChunksF env base capped overlap (fuel + 1) offset).1 =
      if env.readFails ((base + offset) % USIZE_MOD)
          (min env.CHUNK_SIZE (capped - offset)) then
        (scanChunksF env base capped overlap fuel
          (satAdd offset (max 1 (min env.CHUNK_SIZE (capped - offset) - overlap)))).1
      else
        match env.matcher (chunkBuffer env ((base + offset) % USIZE_MOD)
            (min env.CHUNK_SIZE (capped - offset))) with
        | some token => some (some token)
        | none =>
          (scanChunksF env base capped overlap fuel
            (satAdd offset (max 1 (min env.CHUNK_SIZE (capped - offset) - overlap)))).1 := by
  simp only [scanChunksF, if_pos h]
  cases hf : env.readFails ((base + offset) % USIZE_MOD)
      (min env.CHUNK_SIZE (capped - offset))
  · simp only [hf, Bool.false_eq_true, if_false]
    cases env.matcher (chunkBuffer env ((base + offset) % USIZE_MOD)
        (min env.CHUNK_SIZE (capped - offset))) <;> rfl
  · simp only [hf, if_true]

/-- The chunk loop terminates: with any fuel exceeding the remaining
bytes, the result component is never the out-of-fuel marker, provided
the cap is a representable `usize`. -/
theorem scanChunksF_ne_none (env : ScanEnv) (base capped overlap : Nat)
    (hcap : capped ≤ USIZE_MAX) :
    ∀ fuel offset, capped - offset < fuel →
      (scanChunksF env base capped overlap fuel offset).1 ≠ none := by
  intro fuel
  induction fuel with
  | zero => intro offset h; omega
  | succ f ih =>
    intro offset h
    by_cases ho : offset < capped
    · have hstep := chunk_step_le env.CHUNK_SIZE capped overlap offset ho
      have hsat : satAdd offset (max 1 (min env.CHUNK_SIZE (capped - offset) - overlap)) =
          offset + max 1 (min env.CHUNK_SIZE (capped - offset) - overlap) :=
        satAdd_eq_add (le_trans hstep hcap)
      have hrec : capped -
          satAdd offset (max 1 (min env.CHUNK_SIZE (capped - offset) - overlap)) < f := by
        rw [hsat]
        have : 1 ≤ max 1 (min env.CHUNK_SIZE (capped - offset) - overlap) :=
          le_max_left _ _
        omega
      rw [scanChunksF_fst_step env base capped overlap f offset ho]
      cases hf : env.readFails ((base + offset) % USIZE_MOD)
          (min env.CHUNK_SIZE (capped - offset))
      · simp only [hf, Bool.false_eq_true, if_false]
        cases hm : env.matcher (chunkBuffer env ((base + offset) % USIZE_MOD)
            (min env.CHUNK_SIZE (capped - offset)))
        · exact ih _ hrec
        · simp
      · simp only [hf, if_true]
        exact ih _ hrec
    · rw [scanChunksF_halt env base capped overlap f offset ho]
      simp

/-- Every read attempted by the chunk loop starts below the cap,
requests exactly `min(CHUNK_SIZE, capped - offset)` bytes, stays within
the cap, and belongs to the region the loop was started on. -/
theorem scanChunksF_trace_bounds (env : ScanEnv) (base capped overlap : Nat) :
    ∀ fuel offset e, e ∈ (scanChunksF env base capped overlap fuel offset).2 →
      e.base = base ∧ e.offset < capped ∧
      e.len = min env.CHUNK_SIZE (capped - e.offset) ∧ e.offset + e.len ≤ capped := by
  intro fuel
  induction fuel with
  | zero => intro offset e h; simp [scanChunksF] at h
  | succ f ih =>
    intro offset e h
    by_cases ho : offset < capped
    · have hlen : min env.CHUNK_SIZE (capped - offset) ≤ capped - offset :=
        min_le_right _ _
      simp only [scanChunksF, if_pos ho] at h
      cases hf : env.readFails ((base + offset) % USIZE_MOD)
          (min env.CHUNK_SIZE (capped - offset)) with
      | false =>
        simp only [hf, Bool.false_eq_true, if_false] at h
        cases hm : env.matcher (chunkBuffer env ((base + offset) % USIZE_MOD)
            (min env.CHUNK_SIZE (capped - offset))) with
        | none =>
          simp only [hm, List.mem_cons] at h
          rcases h with h | h
          · subst h
            refine ⟨rfl, ho, rfl, ?_⟩
            show offset + min env.CHUNK_SIZE (capped - offset) ≤ capped
            omega
          · exact ih _ e h
        | some token =>
          simp only [hm, List.mem_singleton] at h
          subst h
          refine ⟨rfl, ho, rfl, ?_⟩
          show offset + min env.CHUNK_SIZE (capped - offset) ≤ capped
          omega
      | true =>
        simp only [hf, if_true, List.mem_cons] at h
        rcases h with h | h
        · subst h
          refine ⟨rfl, ho, rfl, ?_⟩
          show offset + min env.CHUNK_SIZE (capped - offset) ≤ capped
          omega
        · exact ih _ e h
    · rw [scanChunksF_halt env base capped overlap f offset ho] at h
      simp at h

/-- When the chunk loop returns a token, its trace ends in a successful
read whose buffer the matcher accepted with exactly that token, and the
matcher rejected every earlier successful read of the trace. -/
theorem scanChunksF_found_shape (env : ScanEnv) (base capped overlap : Nat) :
    ∀ fuel offset tok,
      (scanChunksF env base capped overlap fuel offset).1 = some (some tok) →
      ∃ t' e, (scanChunksF env base capped overlap fuel offset).2 = t' ++ [e] ∧
        e.ok = true ∧ env.matcher (eventBuffer env e) = some tok ∧
        ∀ e' ∈ t', e'.ok = true → env.matcher (eventBuffer env e') = none := by
  intro fuel
  induction fuel with
  | zero => intro offset tok h; simp [scanChunksF] at h
  | succ f ih =>
    intro offset tok h
    by_cases ho : offset < capped
    · simp only [scanChunksF, if_pos ho] at h ⊢
      cases hf : env.readFails ((base + offset) % USIZE_MOD)
          (min env.CHUNK_SIZE (capped - offset)) with
      | false =>
        simp only [hf, Bool.false_eq_true, if_false] at h ⊢
        cases hm : env.matcher (chunkBuffer env ((base + offset) % USIZE_MOD)
            (min env.CHUNK_SIZE (capped - offset))) with
        | none =>
          simp only [hm] at h ⊢
          obtain ⟨t', e, ht, hok, hmt, hpre⟩ := ih _ tok h
          refine ⟨⟨base, offset, min env.CHUNK_SIZE (capped - offset), true⟩ :: t',
            e, by rw [ht]; rfl, hok, hmt, ?_⟩
          intro e' he' hok'
          rcases List.mem_cons.mp he' with he' | he'
          · subst he'; exact hm
          · exact hpre e' he' hok'
        | some token =>
          simp only [hm] at h ⊢
          have htok : token = tok := by simpa using h
          subst htok
          exact ⟨[], ⟨base, offset, min env.CHUNK_SIZE (capped - offset), true⟩,
            rfl, rfl, hm, by intro e' he'; simp at he'⟩
      | true =>
        simp only [hf, if_true] at h ⊢
        obtain ⟨t', e, ht, hok, hmt, hpre⟩ := ih _ tok h
        refine ⟨⟨base, offset, min env.CHUNK_SIZE (capped - offset), false⟩ :: t',
          e, by rw [ht]; rfl, hok, hmt, ?_⟩
        intro e' he' hok'
        rcases List.mem_cons.mp he' with he' | he'
        · subst he'; simp at hok'
        · exact hpre e' he' hok'
    · rw [scanChunksF_halt env base capped overlap f offset ho] at h
      simp at h

/-- When the chunk loop does not return a token (not found, or out of
fuel), the matcher rejected every successful read of its trace. -/
theorem scanChunksF_nomatch (env : ScanEnv) (base capped overlap : Nat) :
    ∀ fuel offset,
      (∀ tok, (scanChunksF env base capped overlap fuel offset).1 ≠ some (some tok)) →
      ∀ e ∈ (scanChunksF env base capped overlap fuel offset).2,
        e.ok = true → env.matcher (eventBuffer env e) = none := by
  intro fuel
  induction fuel with
  | zero => intro offset _ e h; simp [scanChunksF] at h
  | succ f ih =>
    intro offset hno e he hok
    by_cases ho : offset < capped
    · simp only [scanChunksF, if_pos ho] at hno he
      cases hf : env.readFails ((base + offset) % USIZE_MOD)
          (min env.CHUNK_SIZE (capped - offset)) with
      | false =>
        simp only [hf, Bool.false_eq_true, if_false] at hno he
        cases hm : env.matcher (chunkBuffer env ((base + offset) % USIZE_MOD)
            (min env.CHUNK_SIZE (capped - offset))) with
        | none =>
          simp only [hm, List.mem_cons] at hno he
          rcases he with he | he
          · subst he; exact hm
          · exact ih _ hno e he hok
        | some token =>
          simp only [hm] at hno
          exact absurd rfl (hno token)
      | true =>
        simp only [hf, if_true, List.mem_cons] at hno he
        rcases he with he | he
        · subst he; simp at hok
        · exact ih _ hno e he hok
    · rw [scanChunksF_halt env base capped overlap f offset ho] at he
      simp at he

/-- Window coverage of the chunk loop: when no read fails and the
overlap is below the chunk size, any span of at most `overlap + 1`
bytes lying inside the capped region is wholly contained in the window
of some successful read of the trace — unless the loop already returned
a token. -/
theorem scanChunksF_coverage (env : ScanEnv) (base capped overlap : Nat)
    (hov : overlap < env.CHUNK_SIZE) (hcap : capped ≤ USIZE_MAX)
    (hfail : ∀ x n, env.readFails x n = false) :
    ∀ fuel offset s L, offset ≤ s → s + L ≤ capped → 0 < L → L ≤ overlap + 1 →
      capped - offset < fuel →
      (∃ tok, (scanChunksF env base capped overlap fuel offset).1 = some (some tok)) ∨
      ∃ e ∈ (scanChunksF env base capped overlap fuel offset).2,
        e.ok = true ∧ e.offset ≤ s ∧ s + L ≤ e.offset + e.len := by
  intro fuel
  induction fuel with
  | zero => intro offset s L h1 h2 h3 h4 h5; omega
  | succ f ih =>
    intro offset s L h1 h2 h3 h4 h5
    have ho : offset < capped := by omega
    simp only [scanChunksF, if_pos ho, hfail, Bool.false_eq_true, if_false]
    cases hm : env.matcher (chunkBuffer env ((base + offset) % USIZE_MOD)
        (min env.CHUNK_SIZE (capped - offset))) with
    | some token => exact Or.inl ⟨token, by simp⟩
    | none =>
      simp only [hm]
      by_cases hcov : s + L ≤ offset + min env.CHUNK_SIZE (capped - offset)
      · exact Or.inr ⟨⟨base, offset, min env.CHUNK_SIZE (capped - offset), true⟩,
          by simp, rfl, h1, hcov⟩
      · have hcs : min env.CHUNK_SIZE (capped - offset) = env.CHUNK_SIZE := by
          rcases le_total env.CHUNK_SIZE (capped - offset) with hle | hle
          · exact min_eq_left hle
          · exfalso; rw [min_eq_right hle] at hcov; omega
        have hstep : max 1 (min env.CHUNK_SIZE (capped - offset) - overlap)
            = env.CHUNK_SIZE - overlap := by rw [hcs]; omega
        have hlecap : offset + (env.CHUNK_SIZE - overlap) ≤ capped := by
          have h6 := chunk_step_le env.CHUNK_SIZE capped overlap offset ho
          rw [hstep] at h6; exact h6
        have hnext : satAdd offset (max 1 (min env.CHUNK_SIZE (capped - offset) - overlap))
            = offset + (env.CHUNK_SIZE - overlap) := by
          rw [hstep]; exact satAdd_eq_add (le_trans hlecap hcap)
        rw [hcs] at hcov
        have hnexts : offset + (env.CHUNK_SIZE - overlap) ≤ s := by omega
        have hfuel : capped - (offset + (env.CHUNK_SIZE - overlap)) < f := by omega
        rw [hnext]
        rcases ih (offset + (env.CHUNK_SIZE - overlap)) s L hnexts h2 h3 h4 hfuel with
          ⟨tok, htok⟩ | ⟨e, he, hek, he1, he2⟩
        · exact Or.inl ⟨tok, htok⟩
        · exact Or.inr ⟨e, List.mem_cons_of_mem _ he, hek, he1, he2⟩

/-- Every read attempted during the region walk belongs to a region the
query produced which passed the committed/readable/size gate, starts
below that region's cap, requests `min(CHUNK_SIZE, capped - offset)`
bytes, and stays within the cap. -/
theorem scanRegionsF_trace_bounds (env : ScanEnv) :
    ∀ fuel address e, e ∈ (scanRegionsF env fuel address).2 →
      ∃ a info, env.query a = some info ∧ info.State = MEM_COMMIT ∧
        is_readable info.Protect = true ∧ 0 < info.RegionSize ∧
        e.base = info.BaseAddress ∧ e.offset < cappedOf env info.RegionSize ∧
        e.len = min env.CHUNK_SIZE (cappedOf env info.RegionSize - e.offset) ∧
        e.offset + e.len ≤ cappedOf env info.RegionSize := by
  intro fuel
  induction fuel with
  | zero => intro a e h; simp [scanRegionsF] at h
  | succ f ih =>
    intro a e h
    cases hq : env.query a with
    | none => simp [scanRegionsF, hq] at h
    | some info =>
      simp only [scanRegionsF, hq] at h
      by_cases hg : info.State = MEM_COMMIT ∧ is_readable info.Protect = true ∧
          0 < info.RegionSize
      · rw [if_pos hg] at h
        have pack : e ∈ (scanChunksF env info.BaseAddress
            (cappedOf env info.RegionSize) (overlapOf env)
            (cappedOf env info.RegionSize + 1) 0).2 →
            ∃ a info', env.query a = some info' ∧ info'.State = MEM_COMMIT ∧
              is_readable info'.Protect = true ∧ 0 < info'.RegionSize ∧
              e.base = info'.BaseAddress ∧ e.offset < cappedOf env info'.RegionSize ∧
              e.len = min env.CHUNK_SIZE (cappedOf env info'.RegionSize - e.offset) ∧
              e.offset + e.len ≤ cappedOf env info'.RegionSize := by
          intro hmem
          obtain ⟨hb, hlt, hlen, hle⟩ := scanChunksF_trace_bounds env
            info.BaseAddress (cappedOf env info.RegionSize) (overlapOf env) _ _ e hmem
          exact ⟨a, info, hq, hg.1, hg.2.1, hg.2.2, hb, hlt, hlen, hle⟩
        cases hi : (scanChunksF env info.BaseAddress (cappedOf env info.RegionSize)
            (overlapOf env) (cappedOf env info.RegionSize + 1) 0).1 with
        | none => simp only [hi] at h; exact pack h
        | some o =>
          cases o with
          | some token => simp only [hi] at h; exact pack h
          | none =>
            simp only [hi] at h
            by_cases hz : satAdd info.BaseAddress info.RegionSize = 0
            · rw [if_pos hz] at h; exact pack h
            · rw [if_neg hz] at h
              simp only [List.mem_append] at h
              rcases h with h | h
              · exact pack h
              · exact ih _ e h
      · rw [if_neg hg] at h
        by_cases hz : satAdd info.BaseAddress info.RegionSize = 0
        · rw [if_pos hz] at h; simp at h
        · rw [if_neg hz] at h; exact ih _ e h

/-- When the region walk returns a token, its trace ends in a
successful read whose buffer the matcher accepted with exactly that
token, and the matcher rejected every earlier successful read. -/
theorem scanRegionsF_found_shape (env : ScanEnv) :
    ∀ fuel address tok,
      (scanRegionsF env fuel address).1 = some (some tok) →
      ∃ t' e, (scanRegionsF env fuel address).2 = t' ++ [e] ∧ e.ok = true ∧
        env.matcher (eventBuffer env e) = some tok ∧
        ∀ e' ∈ t', e'.ok = true → env.matcher (eventBuffer env e') = none := by
  intro fuel
  induction fuel with
  | zero => intro a tok h; simp [scanRegionsF] at h
  | succ f ih =>
    intro a tok h
    cases hq : env.query a with
    | none => simp [scanRegionsF, hq] at h
    | some info =>
      simp only [scanRegionsF, hq] at h ⊢
      by_cases hg : info.State = MEM_COMMIT ∧ is_readable info.Protect = true ∧
          0 < info.RegionSize
      · rw [if_pos hg] at h ⊢
        cases hi : (scanChunksF env info.BaseAddress (cappedOf env info.RegionSize)
            (overlapOf env) (cappedOf env info.RegionSize + 1) 0).1 with
        | none => simp only [hi] at h; simp at h
        | some o =>
          cases o with
          | some token =>
            simp only [hi] at h ⊢
            have htok : token = tok := by simpa using h
            subst htok
            exact scanChunksF_found_shape env info.BaseAddress
              (cappedOf env info.RegionSize) (overlapOf env) _ 0 token hi
          | none =>
            simp only [hi] at h ⊢
            by_cases hz : satAdd info.BaseAddress info.RegionSize = 0
            · rw [if_pos hz] at h; simp at h
            · rw [if_neg hz] at h ⊢
              obtain ⟨t', e, ht, hok, hmt, hpre⟩ := ih _ tok h
              have hno : ∀ tok', (scanChunksF env info.BaseAddress
                  (cappedOf env info.RegionSize) (overlapOf env)
                  (cappedOf env info.RegionSize + 1) 0).1 ≠ some (some tok') := by
                intro tok'; rw [hi]; simp
              refine ⟨(scanChunksF env info.BaseAddress (cappedOf env info.RegionSize)
                  (overlapOf env) (cappedOf env info.RegionSize + 1) 0).2 ++ t', e,
                by rw [ht, List.append_assoc], hok, hmt, ?_⟩
              intro e' he' hok'
              rcases List.mem_append.mp he' with he' | he'
              · exact scanChunksF_nomatch env info.BaseAddress
                  (cappedOf env info.RegionSize) (overlapOf env) _ 0 hno e' he' hok'
              · exact hpre e' he' hok'
      · rw [if_neg hg] at h ⊢
        by_cases hz : satAdd info.BaseAddress info.RegionSize = 0
        · rw [if_pos hz] at h; simp at h
        · rw [if_neg hz] at h ⊢
          exact ih _ tok h

/-- When the region walk does not return a token (exhaustion, soft stop
or out of fuel), the matcher rejected every successful read of its
trace. -/
theorem scanRegionsF_nomatch (env : ScanEnv) :
    ∀ fuel address,
      (∀ tok, (scanRegionsF env fuel address).1 ≠ some (some tok)) →
      ∀ e ∈ (scanRegionsF env fuel address).2, e.ok = true →
        env.matcher (eventBuffer env e) = none := by
  intro fuel
  induction fuel with
  | zero => intro a _ e h; simp [scanRegionsF] at h
  | succ f ih =>
    intro a hno e he hok
    cases hq : env.query a with
    | none => simp [scanRegionsF, hq] at he
    | some info =>
      simp only [scanRegionsF, hq] at hno he
      by_cases hg : info.State = MEM_COMMIT ∧ is_readable info.Protect = true ∧
          0 < info.RegionSize
      · rw [if_pos hg] at hno he
        cases hi : (scanChunksF env info.BaseAddress (cappedOf env info.RegionSize)
            (overlapOf env) (cappedOf env info.RegionSize + 1) 0).1 with
        | none =>
          simp only [hi] at hno he
          exact scanChunksF_nomatch env info.BaseAddress (cappedOf env info.RegionSize)
            (overlapOf env) _ 0 (by intro tok'; rw [hi]; simp) e he hok
        | some o =>
          cases o with
          | some token =>
            simp only [hi] at hno
            exact absurd rfl (hno token)
          | none =>
            simp only [hi] at hno he
            have hin : ∀ e ∈ (scanChunksF env info.BaseAddress
                (cappedOf env info.RegionSize) (overlapOf env)
                (cappedOf env info.RegionSize + 1) 0).2, e.ok = true →
                env.matcher (eventBuffer env e) = none :=
              scanChunksF_nomatch env info.BaseAddress (cappedOf env info.RegionSize)
                (overlapOf env) _ 0 (by intro tok'; rw [hi]; simp)
            by_cases hz : satAdd info.BaseAddress info.RegionSize = 0
            · rw [if_pos hz] at he
              exact hin e he hok
            · rw [if_neg hz] at hno he
              rcases List.mem_append.mp he with he | he
              · exact hin e he hok
              · exact ih _ hno e he hok
      · rw [if_neg hg] at hno he
        by_cases hz : satAdd info.BaseAddress info.RegionSize = 0
        · rw [if_pos hz] at he; simp at he
        · rw [if_neg hz] at hno he
          exact ih _ hno e he hok

/-- A query answer of unexpected size ends the walk at once with the
not-found outcome and no further reads. -/
theorem scanRegionsF_query_none (env : ScanEnv) (fuel a : Nat)
    (h : env.query a = none) :
    scanRegionsF env (fuel + 1) a = (some none, []) := by
  simp [scanRegionsF, h]

/-- A next-address of zero ends the walk with the not-found outcome;
it can only arise from a zero-base zero-size answer, which the size
gate already excludes from reading. -/
theorem scanRegionsF_wrap_zero (env : ScanEnv) (fuel a : Nat)
    (info : MEMORY_BASIC_INFORMATION) (hq : env.query a = some info)
    (hz : satAdd info.BaseAddress info.RegionSize = 0) :
    scanRegionsF env (fuel + 1) a = (some none, []) := by
  have hsz : info.RegionSize = 0 := by
    simp only [satAdd, USIZE_MAX] at hz; omega
  have hg : ¬ (info.State = MEM_COMMIT ∧ is_readable info.Protect = true ∧
      0 < info.RegionSize) := by
    rw [hsz]; rintro ⟨-, -, h⟩; omega
  simp only [scanRegionsF, hq, if_neg hg, if_pos hz]

/-- The region walk terminates whenever every query answer advances the
address past the queried one (true of `VirtualQueryEx`, whose answer
contains the queried address) and the region cap is a representable
`usize`: fuel beyond `USIZE_MAX - address` never runs out. -/
theorem scanRegionsF_ne_none (env : ScanEnv)
    (hmrb : env.MAX_REGION_BYTES ≤ USIZE_MAX)
    (hadv : ∀ a info, env.query a = some info →
      a < satAdd info.BaseAddress info.RegionSize) :
    ∀ fuel a, USIZE_MAX - a < fuel → (scanRegionsF env fuel a).1 ≠ none := by
  intro fuel
  induction fuel with
  | zero => intro a h; omega
  | succ f ih =>
    intro a h
    cases hq : env.query a with
    | none => simp [scanRegionsF, hq]
    | some info =>
      have ha := hadv a info hq
      have hle := satAdd_le info.BaseAddress info.RegionSize
      simp only [scanRegionsF, hq]
      by_cases hg : info.State = MEM_COMMIT ∧ is_readable info.Protect = true ∧
          0 < info.RegionSize
      · rw [if_pos hg]
        have hcap : cappedOf env info.RegionSize ≤ USIZE_MAX :=
          le_trans (min_le_right _ _) hmrb
        have hinner := scanChunksF_ne_none env info.BaseAddress
          (cappedOf env info.RegionSize) (overlapOf env) hcap
          (cappedOf env info.RegionSize + 1) 0 (by omega)
        cases hi : (scanChunksF env info.BaseAddress (cappedOf env info.RegionSize)
            (overlapOf env) (cappedOf env info.RegionSize + 1) 0).1 with
        | none => exact absurd hi hinner
        | some o =>
          cases o with
          | some token => simp [hi]
          | none =>
            simp only [hi]
            by_cases hz : satAdd info.BaseAddress info.RegionSize = 0
            · rw [if_pos hz]; simp
            · rw [if_neg hz]
              exact ih _ (by omega)
      · rw [if_neg hg]
        by_cases hz : satAdd info.BaseAddress info.RegionSize = 0
        · rw [if_pos hz]; simp
        · rw [if_neg hz]
          exact ih _ (by omega)

/-- A positive cap forces at least one read attempt: the chunk loop
records the read at offset zero whether it succeeds or fails. -/
theorem scanChunksF_trace_nonempty (env : ScanEnv) (base overlap fuel : Nat)
    (capped : Nat) (h : 0 < capped) :
    (scanChunksF env base capped overlap (fuel + 1) 0).2 ≠ [] := by
  simp only [scanChunksF, if_pos h]
  cases hf : env.readFails ((base + 0) % USIZE_MOD) (min env.CHUNK_SIZE (capped - 0)) with
  | false =>
    simp only [hf, Bool.false_eq_true, if_false]
    cases env.matcher (chunkBuffer env ((base + 0) % USIZE_MOD)
        (min env.CHUNK_SIZE (capped - 0))) <;> simp
  | true => simp [hf]

/-- On the anomalous environment `envLoop` the region walk consumes any
amount of fuel without finishing. -/
theorem envLoop_regions_none : ∀ fuel a, (scanRegionsF envLoop fuel a).1 = none := by
  intro fuel
  induction fuel with
  | zero => intro a; rfl
  | succ f ih =>
    intro a
    have hq : envLoop.query a = some ⟨0, 1, MEM_RESERVE, 0⟩ := rfl
    simp only [scanRegionsF, hq]
    rw [if_neg (by decide : ¬(MEM_RESERVE = MEM_COMMIT ∧ is_readable 0 = true ∧ 0 < 1))]
    rw [if_neg (by decide : ¬(satAdd 0 1 = 0))]
    exact ih _

/-- C1: the claim that the process handle is opened once and closed
exactly once on every exit path fails on the code: when `OpenProcess`
succeeds but the `read_process_memory` handle acquisition at
windows.rs line 41 fails, the function returns `Err` with the query
handle opened once and `CloseHandle` never called — the handle leaks
on this error path. -/
theorem handle_leaked_on_rpm_open_failure :
    scan_process_for_token envRpmFail 0 =
      some ⟨Except.error (), 1, 0, []⟩ := rfl

/-- C2: a failed chunk read at an in-range offset does not abort the
region and produces no error: the loop continues at
`offset + max(1, chunk_size - overlap)` (saturated) — the same step
rule as a successful read — so any token the continuation finds after
the failed chunk is returned by the whole loop. -/
theorem read_failure_skips_and_continues (env : ScanEnv)
    (base capped overlap fuel offset : Nat) (h : offset < capped)
    (hfail : env.readFails ((base + offset) % USIZE_MOD)
      (min env.CHUNK_SIZE (capped - offset)) = true) :
    (scanChunksF env base capped overlap (fuel + 1) offset).1 =
      (scanChunksF env base capped overlap fuel
        (satAdd offset (max 1 (min env.CHUNK_SIZE (capped - offset) - overlap)))).1 ∧
    ∀ tok,
      (scanChunksF env base capped overlap fuel
          (satAdd offset (max 1 (min env.CHUNK_SIZE (capped - offset) - overlap)))).1 =
        some (some tok) →
      (scanChunksF env base capped overlap (fuel + 1) offset).1 = some (some tok) := by
  have h1 := scanChunksF_fst_step env base capped overlap fuel offset h
  rw [h1, if_pos hfail]
  exact ⟨rfl, fun tok ht => ht⟩

/-- Witness for C2: with every read failing, one loop iteration from
offset zero of a two-byte cap equals the continuation after the skip. -/
theorem read_failure_skips_and_continues_w :
    (scanChunksF envSkip 0 2 0 1 0).1 =
      (scanChunksF envSkip 0 2 0 0
        (satAdd 0 (max 1 (min envSkip.CHUNK_SIZE (2 - 0) - 0)))).1 :=
  (read_failure_skips_and_continues envSkip 0 2 0 0 0 (by decide) (by decide)).1

/-- C3: for an in-range offset, both on read failure and on a
successful non-matching read the loop continues at
`offset + max(1, chunk_size - overlap)` where
`chunk_size = min(CHUNK_SIZE, capped - offset)` is also the byte count
consumed on success; and the loop terminates — fuel exceeding the
remaining byte count is never exhausted. -/
theorem step_rule_and_termination (env : ScanEnv) (base capped overlap : Nat)
    (hcap : capped ≤ USIZE_MAX) :
    (∀ fuel offset, offset < capped →
      (scanChunksF env base capped overlap (fuel + 1) offset).1 =
        if env.readFails ((base + offset) % USIZE_MOD)
            (min env.CHUNK_SIZE (capped - offset)) then
          (scanChunksF env base capped overlap fuel
            (offset + max 1 (min env.CHUNK_SIZE (capped - offset) - overlap))).1
        else
          match env.matcher (chunkBuffer env ((base + offset) % USIZE_MOD)
              (min env.CHUNK_SIZE (capped - offset))) with
          | some token => some (some token)
          | none =>
            (scanChunksF env base capped overlap fuel
              (offset + max 1 (min env.CHUNK_SIZE (capped - offset) - overlap))).1) ∧
    (∀ fuel offset, capped - offset < fuel →
      (scanChunksF env base capped overlap fuel offset).1 ≠ none) := by
  constructor
  · intro fuel offset ho
    have hsat : satAdd offset (max 1 (min env.CHUNK_SIZE (capped - offset) - overlap)) =
        offset + max 1 (min env.CHUNK_SIZE (capped - offset) - overlap) :=
      satAdd_eq_add (le_trans (chunk_step_le env.CHUNK_SIZE capped overlap offset ho) hcap)
    rw [scanChunksF_fst_step env base capped overlap fuel offset ho, hsat]
  · exact scanChunksF_ne_none env base capped overlap hcap

/-- Witness for C3: on a four-byte cap with fuel five the chunk loop
finishes. -/
theorem step_rule_and_termination_w :
    (scanChunksF envPlain 0 4 0 5 0).1 ≠ none :=
  (step_rule_and_termination envPlain 0 4 0 (by decide)).2 5 0 (by decide)

/-- C4: the byte count considered for a region is exactly
`min(reported size, MAX_REGION_BYTES)`, and every chunk read of any
run starts at an offset below that cap, requests
`min(CHUNK_SIZE, cap - offset)` bytes, and never extends past the
cap. -/
theorem region_reads_respect_cap (env : ScanEnv) :
    (∀ region_size, cappedOf env region_size = min region_size env.MAX_REGION_BYTES) ∧
    (∀ fuel address e, e ∈ (scanRegionsF env fuel address).2 →
      ∃ a info, env.query a = some info ∧ e.base = info.BaseAddress ∧
        e.offset < cappedOf env info.RegionSize ∧
        e.len = min env.CHUNK_SIZE (cappedOf env info.RegionSize - e.offset) ∧
        e.offset + e.len ≤ cappedOf env info.RegionSize) := by
  refine ⟨fun _ => rfl, ?_⟩
  intro fuel address e he
  obtain ⟨a, info, hq, -, -, -, hb, hlt, hlen, hle⟩ :=
    scanRegionsF_trace_bounds env fuel address e he
  exact ⟨a, info, hq, hb, hlt, hlen, hle⟩

/-- Witness for C4: the first read of the `envPlain` run is bounded by
the cap of the region that produced it. -/
theorem region_reads_respect_cap_w :
    ∃ a info, envPlain.query a = some info ∧
      (⟨0, 0, 2, true⟩ : ReadEvent).base = info.BaseAddress ∧
      (⟨0, 0, 2, true⟩ : ReadEvent).offset < cappedOf envPlain info.RegionSize ∧
      (⟨0, 0, 2, true⟩ : ReadEvent).len = min envPlain.CHUNK_SIZE
        (cappedOf envPlain info.RegionSize - (⟨0, 0, 2, true⟩ : ReadEvent).offset) ∧
      (⟨0, 0, 2, true⟩ : ReadEvent).offset + (⟨0, 0, 2, true⟩ : ReadEvent).len ≤
        cappedOf envPlain info.RegionSize :=
  (region_reads_respect_cap envPlain).2 2 0 ⟨0, 0, 2, true⟩ (by decide)

/-- C5: `is_readable` holds exactly for the four writable protections
(no-access and guard values are among the rejected ones); every read of
any run comes from a region that is committed, readable and of
positive size; and conversely a committed readable region of positive
size is read at least once (given a positive region-byte cap). -/
theorem readable_gate_characterisation :
    (∀ p, is_readable p = true ↔
      (p = PAGE_READWRITE ∨ p = PAGE_WRITECOPY ∨
        p = PAGE_EXECUTE_READWRITE ∨ p = PAGE_EXECUTE_WRITECOPY)) ∧
    (∀ env fuel address e, e ∈ (scanRegionsF env fuel address).2 →
      ∃ a info, env.query a = some info ∧ e.base = info.BaseAddress ∧
        info.State = MEM_COMMIT ∧ is_readable info.Protect = true ∧
        0 < info.RegionSize) ∧
    (∀ env fuel address info, env.query address = some info →
      info.State = MEM_COMMIT → is_readable info.Protect = true →
      0 < info.RegionSize → 0 < env.MAX_REGION_BYTES →
      (scanRegionsF env (fuel + 1) address).2 ≠ []) := by
  refine ⟨?_, ?_, ?_⟩
  · intro p
    constructor
    · intro h
      simp only [is_readable] at h
      split_ifs at h with hng
      simp only [Bool.or_eq_true, decide_eq_true_eq] at h
      rcases h with ((h | h) | h) | h
      · exact Or.inl h
      · exact Or.inr (Or.inl h)
      · exact Or.inr (Or.inr (Or.inl h))
      · exact Or.inr (Or.inr (Or.inr h))
    · intro h
      rcases h with h | h | h | h <;> subst h <;> decide
  · intro env fuel address e he
    obtain ⟨a, info, hq, h1, h2, h3, hb, -, -, -⟩ :=
      scanRegionsF_trace_bounds env fuel address e he
    exact ⟨a, info, hq, hb, h1, h2, h3⟩
  · intro env fuel address info hq h1 h2 h3 h4
    have hc : 0 < cappedOf env info.RegionSize := by
      simp only [cappedOf]; omega
    have hne := scanChunksF_trace_nonempty env info.BaseAddress (overlapOf env)
      (cappedOf env info.RegionSize) (cappedOf env info.RegionSize) hc
    simp only [scanRegionsF, hq]
    rw [if_pos ⟨h1, h2, h3⟩]
    cases hi : (scanChunksF env info.BaseAddress (cappedOf env info.RegionSize)
        (overlapOf env) (cappedOf env info.RegionSize + 1) 0).1 with
    | none => simp only [hi]; exact hne
    | some o =>
      cases o with
      | some token => simp only [hi]; exact hne
      | none =>
        simp only [hi]
        by_cases hz : satAdd info.BaseAddress info.RegionSize = 0
        · rw [if_pos hz]; exact hne
        · rw [if_neg hz]
          intro hemp
          exact hne (List.append_eq_nil.mp hemp).1

/-- Witness for C5: read-write protection passes the characterisation,
and the committed read-write region of `envPlain` is actually read. -/
theorem readable_gate_characterisation_w :
    is_readable PAGE_READWRITE = true ∧ (scanRegionsF envPlain 2 0).2 ≠ [] :=
  ⟨(readable_gate_characterisation.1 PAGE_READWRITE).mpr (Or.inl rfl),
   readable_gate_characterisation.2.2 envPlain 1 0 ⟨0, 4, MEM_COMMIT, PAGE_READWRITE⟩
     (by decide) rfl (by decide) (by decide) (by decide)⟩

/-- C6 counterexample: the claim that the enumeration terminates for
every sequence of query answers is false — on `envLoop`, whose every
query answers with a base-zero size-one region, the next address is
always one (`saturating_add` never wraps to zero), and the call never
returns no matter how much fuel it is given. -/
theorem region_enum_query_anomaly_diverges : scanNeverReturns envLoop := by
  intro fuel
  have h := envLoop_regions_none fuel 0
  simp only [scan_process_for_token, h]
  rfl

/-- C6 (amended): the walk stops when a query reports no further
region and when the next address is zero; and it terminates whenever
every query answer advances the address past the queried one — with a
`usize`-representable region cap — which real `VirtualQueryEx` answers
do; anomalous non-advancing answers are excluded, as the
counterexample requires. -/
theorem region_enum_stops_and_terminates (env : ScanEnv)
    (hmrb : env.MAX_REGION_BYTES ≤ USIZE_MAX)
    (hadv : ∀ a info, env.query a = some info →
      a < satAdd info.BaseAddress info.RegionSize) :
    (∀ fuel a, env.query a = none → scanRegionsF env (fuel + 1) a = (some none, [])) ∧
    (∀ fuel a info, env.query a = some info →
      satAdd info.BaseAddress info.RegionSize = 0 →
      scanRegionsF env (fuel + 1) a = (some none, [])) ∧
    (∀ fuel a, USIZE_MAX - a < fuel → (scanRegionsF env fuel a).1 ≠ none) :=
  ⟨fun fuel a h => scanRegionsF_query_none env fuel a h,
   fun fuel a info hq hz => scanRegionsF_wrap_zero env fuel a info hq hz,
   scanRegionsF_ne_none env hmrb hadv⟩

/-- Witness for the amended C6: on an environment whose first query
already reports no region, ample fuel is never exhausted. -/
theorem region_enum_stops_and_terminates_w :
    (scanRegionsF envQnone (USIZE_MAX + 1) 0).1 ≠ none :=
  (region_enum_stops_and_terminates envQnone (Nat.zero_le _)
    (fun _ _ h => Option.noConfusion h)).2.2 (USIZE_MAX + 1) 0
    (Nat.lt_succ_of_le (Nat.sub_le _ _))

/-- C7: a finished call returns `Err` exactly when one of the two
handle acquisitions failed (OpenProcess error, invalid handle, or
`read_process_memory` handle failure); and a query answer of
unexpected size ends the enumeration with `Ok(None)` rather than an
error — in particular no chunk-read failure ever produces an error
result. -/
theorem err_iff_handle_acquisition_failure :
    (∀ env fuel run, scan_process_for_token env fuel = some run →
      (run.result = Except.error () ↔
        (env.openFails = true ∨ env.handleInvalid = true ∨ env.rpmFails = true))) ∧
    (∀ env fuel a, env.query a = none →
      (scanRegionsF env (fuel + 1) a).1 = some none) := by
  constructor
  · intro env fuel run h
    simp only [scan_process_for_token] at h
    by_cases ho : env.openFails = true
    · rw [if_pos ho] at h
      obtain rfl : (⟨Except.error (), 0, 0, []⟩ : ScanRun) = run := Option.some.inj h
      simp [ho]
    · rw [if_neg ho] at h
      by_cases hh : env.handleInvalid = true
      · rw [if_pos hh] at h
        obtain rfl : (⟨Except.error (), 1, 0, []⟩ : ScanRun) = run := Option.some.inj h
        simp [hh]
      · rw [if_neg hh] at h
        by_cases hr : env.rpmFails = true
        · rw [if_pos hr] at h
          obtain rfl : (⟨Except.error (), 1, 0, []⟩ : ScanRun) = run := Option.some.inj h
          simp [hr]
        · rw [if_neg hr] at h
          cases hs : (scanRegionsF env fuel 0).1 with
          | none => simp only [hs] at h; exact Option.noConfusion h
          | some r =>
            simp only [hs] at h
            obtain rfl : (⟨Except.ok r, 1, 1, (scanRegionsF env fuel 0).2⟩ : ScanRun) = run :=
              Option.some.inj h
            simp [ho, hh, hr]
  · intro env fuel a h
    rw [scanRegionsF_query_none env fuel a h]

/-- Witness for C7 at the concrete failing handle acquisition. -/
theorem err_iff_handle_acquisition_failure_w :
    (⟨Except.error (), 1, 0, []⟩ : ScanRun).result = Except.error () ↔
      (envRpmFail.openFails = true ∨ envRpmFail.handleInvalid = true ∨
        envRpmFail.rpmFails = true) :=
  err_iff_handle_acquisition_failure.1 envRpmFail 0 ⟨Except.error (), 1, 0, []⟩ rfl

/-- C8: when a finished call returns `Ok(Some(token))`, its trace ends
at the first buffer the matcher accepted — the matcher rejected every
earlier successful read and nothing was read afterwards — and the
token is exactly the matcher's token; when it returns `Ok(None)`,
every successful read of the whole walk was rejected, and this is the
`Ok` constructor, not an error. -/
theorem first_match_short_circuits :
    ∀ env fuel run, scan_process_for_token env fuel = some run →
      (∀ tok, run.result = Except.ok (some tok) →
        ∃ t' e, run.trace = t' ++ [e] ∧ e.ok = true ∧
          env.matcher (eventBuffer env e) = some tok ∧
          ∀ e' ∈ t', e'.ok = true → env.matcher (eventBuffer env e') = none) ∧
      (run.result = Except.ok none →
        ∀ e ∈ run.trace, e.ok = true → env.matcher (eventBuffer env e) = none) := by
  intro env fuel run h
  simp only [scan_process_for_token] at h
  by_cases ho : env.openFails = true
  · rw [if_pos ho] at h
    obtain rfl : (⟨Except.error (), 0, 0, []⟩ : ScanRun) = run := Option.some.inj h
    exact ⟨fun tok htok => Except.noConfusion htok, fun htok => Except.noConfusion htok⟩
  · rw [if_neg ho] at h
    by_cases hh : env.handleInvalid = true
    · rw [if_pos hh] at h
      obtain rfl : (⟨Except.error (), 1, 0, []⟩ : ScanRun) = run := Option.some.inj h
      exact ⟨fun tok htok => Except.noConfusion htok, fun htok => Except.noConfusion htok⟩
    · rw [if_neg hh] at h
      by_cases hr : env.rpmFails = true
      · rw [if_pos hr] at h
        obtain rfl : (⟨Except.error (), 1, 0, []⟩ : ScanRun) = run := Option.some.inj h
        exact ⟨fun tok htok => Except.noConfusion htok, fun htok => Except.noConfusion htok⟩
      · rw [if_neg hr] at h
        cases hs : (scanRegionsF env fuel 0).1 with
        | none => simp only [hs] at h; exact Option.noConfusion h
        | some r =>
          simp only [hs] at h
          obtain rfl : (⟨Except.ok r, 1, 1, (scanRegionsF env fuel 0).2⟩ : ScanRun) = run :=
            Option.some.inj h
          constructor
          · intro tok htok
            have hr' : r = some tok := by simpa using htok
            subst hr'
            exact scanRegionsF_found_shape env fuel 0 tok hs
          · intro htok e he hok
            have hr' : r = none := by simpa using htok
            subst hr'
            exact scanRegionsF_nomatch env fuel 0 (by intro tok; rw [hs]; simp) e he hok

/-- Witness for C8: the `envHit` run returns the token of its first
buffer and the trace ends at that buffer. -/
theorem first_match_short_circuits_w :
    ∃ t' e, (⟨Except.ok (some "tok"), 1, 1,
        [⟨0, 0, 2, true⟩]⟩ : ScanRun).trace = t' ++ [e] ∧
      e.ok = true ∧ envHit.matcher (eventBuffer envHit e) = some "tok" ∧
      ∀ e' ∈ t', e'.ok = true → envHit.matcher (eventBuffer envHit e') = none :=
  (first_match_short_circuits envHit 1
    ⟨Except.ok (some "tok"), 1, 1, [⟨0, 0, 2, true⟩]⟩ rfl).1 "tok" rfl

/-- C9: the overlap used by the chunk loop is at least (indeed equal
to) the larger pattern length plus `SCAN_AHEAD`; consecutive
full-size windows of successful non-matching reads overlap by exactly
that many bytes; and with failure-free reads any span of at most
`overlap + 1` bytes inside the capped region lands whole inside some
buffer handed to the matcher, unless a token was already returned. -/
theorem overlap_window_guarantee (env : ScanEnv) (base capped : Nat)
    (hov : overlapOf env < env.CHUNK_SIZE) (hcap : capped ≤ USIZE_MAX)
    (hfail : ∀ x n, env.readFails x n = false) :
    (max env.lead.length env.trail.length + env.SCAN_AHEAD ≤ overlapOf env) ∧
    (∀ fuel offset, env.CHUNK_SIZE ≤ capped - offset →
      env.matcher (chunkBuffer env ((base + offset) % USIZE_MOD) env.CHUNK_SIZE) = none →
      (scanChunksF env base capped (overlapOf env) (fuel + 1) offset).1 =
        (scanChunksF env base capped (overlapOf env) fuel
          (offset + (env.CHUNK_SIZE - overlapOf env))).1 ∧
      offset + env.CHUNK_SIZE - (offset + (env.CHUNK_SIZE - overlapOf env)) =
        overlapOf env) ∧
    (∀ fuel s L, s + L ≤ capped → 0 < L → L ≤ overlapOf env + 1 → capped < fuel →
      (∃ tok, (scanChunksF env base capped (overlapOf env) fuel 0).1 =
        some (some tok)) ∨
      ∃ e ∈ (scanChunksF env base capped (overlapOf env) fuel 0).2,
        e.ok = true ∧ e.offset ≤ s ∧ s + L ≤ e.offset + e.len) := by
  refine ⟨le_refl _, ?_, ?_⟩
  · intro fuel offset hch hm
    have ho : offset < capped := by omega
    have hcs : min env.CHUNK_SIZE (capped - offset) = env.CHUNK_SIZE := min_eq_left hch
    have hle : offset + (env.CHUNK_SIZE - overlapOf env) ≤ capped := by omega
    have hstep : max 1 (env.CHUNK_SIZE - overlapOf env) =
        env.CHUNK_SIZE - overlapOf env := by omega
    refine ⟨?_, by omega⟩
    rw [scanChunksF_fst_step env base capped (overlapOf env) fuel offset ho, hcs,
      hstep, satAdd_eq_add (le_trans hle hcap),
      hfail ((base + offset) % USIZE_MOD) env.CHUNK_SIZE]
    simp only [Bool.false_eq_true, if_false, hm]
  · intro fuel s L h2 h3 h4 h5
    exact scanChunksF_coverage env base capped (overlapOf env) hov hcap hfail
      fuel 0 s L (Nat.zero_le _) h2 h3 h4 (by omega)

/-- Witness for C9: on `envCov` (chunk four, overlap two) the two-byte
span at offsets three and four of a six-byte cap is covered. -/
theorem overlap_window_guarantee_w :
    (∃ tok, (scanChunksF envCov 0 6 (overlapOf envCov) 7 0).1 = some (some tok)) ∨
    ∃ e ∈ (scanChunksF envCov 0 6 (overlapOf envCov) 7 0).2,
      e.ok = true ∧ e.offset ≤ 3 ∧ 3 + 2 ≤ e.offset + e.len :=
  (overlap_window_guarantee envCov 0 6 (by decide) (by decide)
    (fun _ _ => rfl)).2.2 7 3 2 (by decide) (by decide) (by decide) (by decide)

/-- C10: every buffer lies inside the capped extent of the single
region that produced it; consequently, for a boundary address no
region straddles, a span crossing that boundary is never contained in
any read window (so a token split across two adjacent regions is never
presented whole to the matcher). -/
theorem buffer_confined_to_one_region :
    (∀ env fuel address e, e ∈ (scanRegionsF env fuel address).2 →
      ∃ a info, env.query a = some info ∧ e.base = info.BaseAddress ∧
        e.offset + e.len ≤ min info.RegionSize env.MAX_REGION_BYTES) ∧
    (∀ env B s L fuel address,
      (∀ a info, env.query a = some info →
        info.BaseAddress + info.RegionSize ≤ B ∨ B ≤ info.BaseAddress) →
      (∀ a info, env.query a = some info →
        info.BaseAddress + info.RegionSize ≤ USIZE_MOD) →
      s < B → B < s + L →
      ∀ e ∈ (scanRegionsF env fuel address).2,
        ¬((e.base + e.offset) % USIZE_MOD ≤ s ∧
          s + L ≤ (e.base + e.offset) % USIZE_MOD + e.len)) := by
  constructor
  · intro env fuel address e he
    obtain ⟨a, info, hq, -, -, -, hb, -, -, hle⟩ :=
      scanRegionsF_trace_bounds env fuel address e he
    exact ⟨a, info, hq, hb, hle⟩
  · intro env B s L fuel address hB hw hs hL e he hcon
    obtain ⟨a, info, hq, -, -, -, hb, hlt, -, hle⟩ :=
      scanRegionsF_trace_bounds env fuel address e he
    have hcap : cappedOf env info.RegionSize ≤ info.RegionSize := min_le_left _ _
    have h1 := hw a info hq
    have h2 : e.offset < info.RegionSize := lt_of_lt_of_le hlt hcap
    have hwrap : e.base + e.offset < USIZE_MOD := by rw [hb]; omega
    rw [Nat.mod_eq_of_lt hwrap] at hcon
    have hin : e.offset + e.len ≤ info.RegionSize := le_trans hle hcap
    rw [hb] at hcon
    rcases hB a info hq with hside | hside
    · omega
    · omega

/-- Witness for C10: on the two adjacent regions of `envTwo` meeting at
address four, the first read window does not contain the straddling
span of offsets three and four. -/
theorem buffer_confined_to_one_region_w :
    ¬(((⟨0, 0, 4, true⟩ : ReadEvent).base + (⟨0, 0, 4, true⟩ : ReadEvent).offset) %
        USIZE_MOD ≤ 3 ∧
      3 + 2 ≤ ((⟨0, 0, 4, true⟩ : ReadEvent).base +
        (⟨0, 0, 4, true⟩ : ReadEvent).offset) % USIZE_MOD +
        (⟨0, 0, 4, true⟩ : ReadEvent).len) :=
  buffer_confined_to_one_region.2 envTwo 4 3 2 3 0
    (by
      intro a info h
      simp only [envTwo] at h
      split_ifs at h with h0 h4
      · obtain rfl := Option.some.inj h; exact Or.inl (by decide)
      · obtain rfl := Option.some.inj h; exact Or.inr (by decide))
    (by
      intro a info h
      simp only [envTwo] at h
      split_ifs at h with h0 h4
      · obtain rfl := Option.some.inj h; decide
      · obtain rfl := Option.some.inj h; decide)
    (by decide) (by decide) ⟨0, 0, 4, true⟩ (by decide)

end AntigravityScan
